import Mathlib

/-!
Shallow embedding of the viddystudio repository.

The repository consists of two Python scripts sharing most of their
structure:

* src/extract_segments_with_edl.py — parse an SRT file, extract one video
  segment per subtitle time range via ffmpeg, and emit an EDL file.
  Definitions modelling this script carry the suffix `edl`.
* src/process_video.py — parse an SRT file, extract segments, and
  concatenate them via an ffmpeg concat manifest.  Definitions modelling
  this script carry the suffix `pv`.

Modelling conventions:

* Python strings are modelled as `String`/`List Char`; the regex digit
  class and whitespace class are modelled over ASCII (the subtitle format
  the scripts consume is ASCII).
* The external ffmpeg invocations are modelled by an oracle
  `run : Nat → RunResult` giving the exit status and stderr text of the
  i-th (1-based) invocation; `sys.exit(1)` is modelled as an
  `Except.error` carrying exit status 1.
* File writes are modelled by returning the written file content as a
  `String`.
* The float expression `int((millis / 1000.0) * 30)` of
  format_time_for_edl is modelled bit-exactly: `divDouble`/`mulDouble30`
  implement round-to-nearest-even IEEE-754 binary64 division and
  multiplication on exact (significand, scale) pairs, which is lossless
  for the magnitudes reachable here (all values normal, far from
  overflow/underflow).
-/

set_option maxRecDepth 200000

-- ## Basic helpers for the Python string operations

/-- The regex class \s of the CPython re module, restricted to ASCII:
space, tab, newline, vertical tab, form feed, carriage return. -/
def isPySpace (c : Char) : Bool :=
  c == ' ' || c == '\t' || c == '\n' || c == '\x0b' || c == '\x0c' || c == '\r'

/-- Python int() applied to a (non-empty, all-digit) decimal string, the
only shape it is applied to in these scripts. -/
def pyInt (cs : List Char) : Nat :=
  cs.foldl (fun a c => a * 10 + (c.toNat - 48)) 0

/-- Python zero-padded integer formatting: pyZFill w n models the
f-string conversion of a nonnegative int n with format spec 0w
(for example f-string spec 03d applied to 7 gives 007).  Numbers whose
decimal form is already at least w digits long are not truncated. -/
def pyZFill (w : Nat) (n : Nat) : String :=
  let s := Nat.repr n
  String.mk (List.replicate (w - s.length) '0') ++ s

/-- Python str.split(sep) for a single-character separator. -/
def splitOnChar (sep : Char) : List Char → List (List Char)
  | [] => [[]]
  | c :: rest =>
    match splitOnChar sep rest with
    | [] => [[c]]
    | g :: gs => if c == sep then [] :: g :: gs else (c :: g) :: gs

/-- Python str.replace(old, new) for a single-character pattern: each
occurrence of the character is expanded to the replacement list, scanning
left to right. -/
def pyReplaceChar (pat : Char) (repl : List Char) (cs : List Char) : List Char :=
  cs.flatMap (fun c => if c == pat then repl else [c])

-- ## Bit-exact model of the binary64 computation in format_time_for_edl

/-- Nearest integer to n / d with ties to even (d > 0 intended). -/
def rqNat (n d : Nat) : Nat :=
  let q := n / d
  let r := n % d
  if 2 * r < d then q
  else if d < 2 * r then q + 1
  else if q % 2 = 0 then q else q + 1

/-- Smallest k with target ≤ a * 2 ^ k, computed with explicit fuel. -/
def shiftFor : Nat → Nat → Nat → Nat
  | 0, _, _ => 0
  | fuel + 1, a, target =>
    if target ≤ a then 0 else shiftFor fuel (2 * a) target + 1

/-- Number of binary digits of n, computed with explicit fuel. -/
def bitLen : Nat → Nat → Nat
  | 0, _ => 0
  | fuel + 1, n => if n = 0 then 0 else bitLen fuel (n / 2) + 1

/-- IEEE-754 binary64 round-to-nearest-even quotient a / b of two
naturals, returned as a pair (m, k) denoting the exact value m / 2 ^ k.
Valid for quotients in the normal finite range, which covers every value
reachable in these scripts. -/
def divDouble (a b : Nat) : Nat × Nat :=
  if a = 0 then (0, 0)
  else
    let k := shiftFor 200 a (b * 2 ^ 52)
    (rqNat (a * 2 ^ k) b, k)

/-- IEEE-754 binary64 round-to-nearest-even product of the double
(m, k) (value m / 2 ^ k) with the exactly-converted integer 30. -/
def mulDouble30 (mk : Nat × Nat) : Nat × Nat :=
  let n := 30 * mk.1
  if n < 2 ^ 53 then (n, mk.2)
  else
    let t := bitLen 200 n - 53
    (rqNat n (2 ^ t), mk.2 - t)

/-- The frame computation of format_time_for_edl:
int((millis / 1000.0) * 30), with both float operations modelled
bit-exactly and int() truncating toward zero (floor, as all values are
nonnegative). -/
def framesFloat (millis : Nat) : Nat :=
  let mk := mulDouble30 (divDouble millis 1000)
  mk.1 / 2 ^ mk.2

-- ## The timing parser (parse_srt of both scripts)

/-- One match of the timestamp-pair regex.  The textual pattern, shared
by both scripts, is HH:MM:SS,mmm then one whitespace, the three-character
arrow, one whitespace, then HH:MM:SS,mmm again, every letter position
being a single-digit class.  The scripts differ only in capture grouping:
the edl script captures the eight two- or three-digit fields separately,
the pv script captures start HH:MM:SS, start mmm, end HH:MM:SS, end mmm.
A match always consists of the same 18 digit characters, recorded here;
the per-script capture groups are reconstructed from them below. -/
structure RawMatch where
  sh1 : Char
  sh2 : Char
  sm1 : Char
  sm2 : Char
  ss1 : Char
  ss2 : Char
  sx1 : Char
  sx2 : Char
  sx3 : Char
  eh1 : Char
  eh2 : Char
  em1 : Char
  em2 : Char
  es1 : Char
  es2 : Char
  ex1 : Char
  ex2 : Char
  ex3 : Char
deriving DecidableEq, Repr

/-- Attempt to match the timestamp-pair pattern at the head of the
character list.  The pattern is a fixed template of 29 single-character
classes (no quantifier variability, no backtracking), so a match either
covers exactly the next 29 characters or fails. -/
def matchAt : List Char → Option RawMatch
  | a0 :: a1 :: c0 :: a2 :: a3 :: c1 :: a4 :: a5 :: c2 :: a6 :: a7 :: a8 ::
    w0 :: d0 :: d1 :: d2 :: w1 ::
    b0 :: b1 :: c3 :: b2 :: b3 :: c4 :: b4 :: b5 :: c5 :: b6 :: b7 :: b8 :: _ =>
    if a0.isDigit && a1.isDigit && c0 == ':' && a2.isDigit && a3.isDigit && c1 == ':' &&
       a4.isDigit && a5.isDigit && c2 == ',' && a6.isDigit && a7.isDigit && a8.isDigit &&
       isPySpace w0 && d0 == '-' && d1 == '-' && d2 == '>' && isPySpace w1 &&
       b0.isDigit && b1.isDigit && c3 == ':' && b2.isDigit && b3.isDigit && c4 == ':' &&
       b4.isDigit && b5.isDigit && c5 == ',' && b6.isDigit && b7.isDigit && b8.isDigit
    then some ⟨a0, a1, a2, a3, a4, a5, a6, a7, a8, b0, b1, b2, b3, b4, b5, b6, b7, b8⟩
    else none
  | _ => none

/-- Left-to-right non-overlapping scan of re.findall: at each position try
the pattern; on success consume the 29 matched characters, otherwise
advance one character.  Fuel-based so that the kernel can evaluate it;
one unit of fuel per consumed character always suffices. -/
def findAllAux : Nat → List Char → List RawMatch
  | 0, _ => []
  | _ + 1, [] => []
  | fuel + 1, c :: rest =>
    match matchAt (c :: rest) with
    | some m => m :: findAllAux fuel ((c :: rest).drop 29)
    | none => findAllAux fuel rest

/-- pattern.findall(content) for the timestamp-pair pattern. -/
def findAll (cs : List Char) : List RawMatch :=
  findAllAux cs.length cs

/-- Digit value of an ASCII digit character. -/
def dv (c : Char) : Nat := c.toNat - 48

-- Capture groups of the edl script (eight two/three-digit strings).

def RawMatch.gStartH (m : RawMatch) : String := String.mk [m.sh1, m.sh2]

def RawMatch.gStartM (m : RawMatch) : String := String.mk [m.sm1, m.sm2]

def RawMatch.gStartS (m : RawMatch) : String := String.mk [m.ss1, m.ss2]

def RawMatch.gStartMs (m : RawMatch) : String := String.mk [m.sx1, m.sx2, m.sx3]

def RawMatch.gEndH (m : RawMatch) : String := String.mk [m.eh1, m.eh2]

def RawMatch.gEndM (m : RawMatch) : String := String.mk [m.em1, m.em2]

def RawMatch.gEndS (m : RawMatch) : String := String.mk [m.es1, m.es2]

def RawMatch.gEndMs (m : RawMatch) : String := String.mk [m.ex1, m.ex2, m.ex3]

-- Capture groups of the pv script (two HH:MM:SS strings, two ms strings).

def RawMatch.gStartHMS (m : RawMatch) : String :=
  String.mk [m.sh1, m.sh2, ':', m.sm1, m.sm2, ':', m.ss1, m.ss2]

def RawMatch.gEndHMS (m : RawMatch) : String :=
  String.mk [m.eh1, m.eh2, ':', m.em1, m.em2, ':', m.es1, m.es2]

/-- start_time of the edl script: groups 0,1,2 joined with colons, then a dot and group 3. -/
def RawMatch.startStrEdl (m : RawMatch) : String :=
  m.gStartH ++ ":" ++ m.gStartM ++ ":" ++ m.gStartS ++ "." ++ m.gStartMs

/-- end_time of the edl script: groups 4,5,6 joined with colons, then a dot and group 7. -/
def RawMatch.endStrEdl (m : RawMatch) : String :=
  m.gEndH ++ ":" ++ m.gEndM ++ ":" ++ m.gEndS ++ "." ++ m.gEndMs

/-- start_time of the pv script: group 0, a dot, group 1. -/
def RawMatch.startStrPv (m : RawMatch) : String :=
  m.gStartHMS ++ "." ++ m.gStartMs

/-- end_time of the pv script: group 2, a dot, group 3. -/
def RawMatch.endStrPv (m : RawMatch) : String :=
  m.gEndHMS ++ "." ++ m.gEndMs

/-- Millisecond value of the start timestamp of a match. -/
def RawMatch.startVal (m : RawMatch) : Nat :=
  (((dv m.sh1 * 10 + dv m.sh2) * 60 + (dv m.sm1 * 10 + dv m.sm2)) * 60 +
    (dv m.ss1 * 10 + dv m.ss2)) * 1000 + (dv m.sx1 * 100 + dv m.sx2 * 10 + dv m.sx3)

/-- Millisecond value of the end timestamp of a match. -/
def RawMatch.endVal (m : RawMatch) : Nat :=
  (((dv m.eh1 * 10 + dv m.eh2) * 60 + (dv m.em1 * 10 + dv m.em2)) * 60 +
    (dv m.es1 * 10 + dv m.es2)) * 1000 + (dv m.ex1 * 100 + dv m.ex2 * 10 + dv m.ex3)

/-- Millisecond value of a produced HH:MM:SS.mmm time string (the shape
both parse_srt variants emit); 0 on any other shape. -/
def strTimeVal (s : String) : Nat :=
  match s.data with
  | [h1, h2, _, m1, m2, _, s1, s2, _, x1, x2, x3] =>
    (((dv h1 * 10 + dv h2) * 60 + (dv m1 * 10 + dv m2)) * 60 +
      (dv s1 * 10 + dv s2)) * 1000 + (dv x1 * 100 + dv x2 * 10 + dv x3)
  | _ => 0

/-- The placeholder-removal step of the edl script:
if matches and all(part == '00' for part in matches[0][:2]) then
matches[1:] else matches.  The first two capture groups (start hours and
start minutes) are compared with the string 00. -/
def dropPlaceholderEdl : List RawMatch → List RawMatch
  | [] => []
  | m0 :: rest => if m0.gStartH == "00" && m0.gStartM == "00" then rest else m0 :: rest

/-- parse_srt of src/extract_segments_with_edl.py, lines 7-29, applied to
the file content. -/
def parse_srt_edl (content : List Char) : List (String × String) :=
  (dropPlaceholderEdl (findAll content)).map (fun m => (m.startStrEdl, m.endStrEdl))

/-- The placeholder-removal step of the pv script:
if matches and matches[0][0] == '00' and matches[0][1] == '000' then
matches[1:] else matches.  The first capture group is the whole HH:MM:SS
start string, compared with the string 00. -/
def dropPlaceholderPv : List RawMatch → List RawMatch
  | [] => []
  | m0 :: rest => if m0.gStartHMS == "00" && m0.gStartMs == "000" then rest else m0 :: rest

/-- parse_srt of src/process_video.py, lines 6-28, applied to the file
content. -/
def parse_srt_pv (content : List Char) : List (String × String) :=
  (dropPlaceholderPv (findAll content)).map (fun m => (m.startStrPv, m.endStrPv))

-- ## Timecode formatter (format_time_for_edl, edl script lines 71-84)

/-- format_time_for_edl of src/extract_segments_with_edl.py: convert a
time string HH:MM:SS.mmm (the shape parse_srt produces) to HH:MM:SS:FF at
an assumed 30 fps.  Notes on fidelity: list indexing parts[i] is modelled
with getD (Python would raise IndexError off the produced shape, which no
reachable input triggers); the local total_seconds of the source is
computed but never used in the returned string, so it is omitted; the
f-string conversions with the 02 format spec are pyZFill 2. -/
def format_time_for_edl (time_str : String) : String :=
  let parts := splitOnChar ':' time_str.data
  let hours := pyInt (parts.getD 0 [])
  let minutes := pyInt (parts.getD 1 [])
  let secParts := splitOnChar '.' (parts.getD 2 [])
  let seconds := pyInt (secParts.getD 0 [])
  let millis := pyInt (secParts.getD 1 [])
  let frames := framesFloat millis
  pyZFill 2 hours ++ ":" ++ pyZFill 2 minutes ++ ":" ++ pyZFill 2 seconds ++ ":" ++
    pyZFill 2 frames

-- ## Segment extractor (extract_segments of both scripts)

/-- Exit status and diagnostic stream of one external ffmpeg invocation
(subprocess.run result). -/
structure RunResult where
  returncode : Nat
  stderr : String

/-- One segment record of the edl script: the dict of filename, start
and end appended per extracted segment.  The end key is named stop here
because end is a Lean keyword. -/
structure Seg where
  filename : String
  start : String
  stop : String
deriving DecidableEq, Repr

/-- The segment file name: segment_, the index under the 03d format spec, then .mov. -/
def segmentFilename (idx : Nat) : String :=
  "segment_" ++ pyZFill 3 idx ++ ".mov"

/-- os.path.join for POSIX paths, the two-argument form used here. -/
def osPathJoin (a b : String) : String :=
  if b.data.head? == some '/' then b
  else if a == "" then b
  else if a.data.getLast? == some '/' then a ++ b
  else a ++ "/" ++ b

/-- The error message printed by both scripts before sys.exit(1) when an
ffmpeg trim fails. -/
def extractErrMsg (idx : Nat) (err : String) : String :=
  "Error extracting segment " ++ Nat.repr idx ++ ": " ++ err

/-- Loop body of extract_segments (edl script): enumerate(time_ranges,
start=1), one ffmpeg invocation per range; on non-zero exit status print
the diagnostic and sys.exit(1).  Returns the 1-based indices of the
invocations actually performed together with either the error (message,
process exit status) or the list of segment records. -/
def extract_segments_edl_go (run : Nat → RunResult) :
    Nat → List (String × String) → List Nat × Except (String × Nat) (List Seg)
  | _, [] => ([], Except.ok [])
  | idx, (s, e) :: rest =>
    let r := run idx
    if r.returncode ≠ 0 then
      ([idx], Except.error (extractErrMsg idx r.stderr, 1))
    else
      let res := extract_segments_edl_go run (idx + 1) rest
      (idx :: res.1, res.2.map (fun segs => ⟨segmentFilename idx, s, e⟩ :: segs))

/-- extract_segments of src/extract_segments_with_edl.py, lines 31-69. -/
def extract_segments_edl (time_ranges : List (String × String)) (run : Nat → RunResult) :
    List Nat × Except (String × Nat) (List Seg) :=
  extract_segments_edl_go run 1 time_ranges

/-- Loop body of extract_segments (pv script): identical control flow,
but the accumulated list holds the joined segment paths. -/
def extract_segments_pv_go (segments_dir : String) (run : Nat → RunResult) :
    Nat → List (String × String) → List Nat × Except (String × Nat) (List String)
  | _, [] => ([], Except.ok [])
  | idx, (_, _) :: rest =>
    let r := run idx
    if r.returncode ≠ 0 then
      ([idx], Except.error (extractErrMsg idx r.stderr, 1))
    else
      let res := extract_segments_pv_go segments_dir run (idx + 1) rest
      (idx :: res.1,
        res.2.map (fun segs => osPathJoin segments_dir (segmentFilename idx) :: segs))

/-- extract_segments of src/process_video.py, lines 30-64. -/
def extract_segments_pv (segments_dir : String) (time_ranges : List (String × String))
    (run : Nat → RunResult) : List Nat × Except (String × Nat) (List String) :=
  extract_segments_pv_go segments_dir run 1 time_ranges

-- ## EDL emitter (generate_edl, edl script lines 86-96)

/-- One event line of the EDL file, exactly as the f-string of line 94:
3-digit zero-padded record number, reel AX, track type V, edit type C,
then source-in, source-out, record-in, record-out timecodes; the record
pair is populated from the same start/end as the source pair. -/
def edlEventLine (idx : Nat) (segment : Seg) : String :=
  pyZFill 3 idx ++ "  AX       V     C        " ++
    format_time_for_edl segment.start ++ " " ++ format_time_for_edl segment.stop ++ " " ++
    format_time_for_edl segment.start ++ " " ++ format_time_for_edl segment.stop ++ "\n"

/-- The event lines written by the for loop, from a given 1-based index. -/
def edlEventsFrom : Nat → List Seg → String
  | _, [] => ""
  | idx, s :: rest => edlEventLine idx s ++ edlEventsFrom (idx + 1) rest

/-- generate_edl of src/extract_segments_with_edl.py: the full content
written to the EDL file. -/
def generate_edl (segments : List Seg) : String :=
  "TITLE: Extracted Segments EDL\n" ++ "FCM: NON-DROP FRAME\n\n" ++ edlEventsFrom 1 segments

-- ## Concatenator (create_concat_list, pv script lines 66-75)

/-- The single-quote character (written via its code point to keep the
file free of quote literals). -/
def quoteCh : Char := Char.ofNat 39

/-- The escaping segment.replace of line 73: each single quote of the
path becomes quote, backslash, quote, quote. -/
def escapedPath (p : String) : String :=
  String.mk (pyReplaceChar quoteCh [quoteCh, '\\', quoteCh, quoteCh] p.data)

/-- One manifest line: the f-string of line 74, file <sq><path><sq>. -/
def concatLine (p : String) : String :=
  "file " ++ String.mk [quoteCh] ++ escapedPath p ++ String.mk [quoteCh] ++ "\n"

/-- create_concat_list of src/process_video.py: the full content written
to the concat manifest, one f.write per segment in loop order. -/
def create_concat_list : List String → String
  | [] => ""
  | p :: rest => concatLine p ++ create_concat_list rest

-- ## Drivers (main of both scripts)

/-- main of src/extract_segments_with_edl.py.  File existence of the two
inputs is abstracted to two booleans, the SRT file content to a character
list, ffmpeg to the run oracle.  The result pairs the performed trim
invocations with either the process exit status (each sys.exit(1) site)
or the extracted segments and the written EDL content. -/
def main_edl (videoExists srtExists : Bool) (srtContent : List Char)
    (run : Nat → RunResult) : List Nat × Except Nat (List Seg × String) :=
  if !videoExists then ([], Except.error 1)
  else if !srtExists then ([], Except.error 1)
  else
    let time_ranges := parse_srt_edl srtContent
    if time_ranges.isEmpty then ([], Except.error 1)
    else
      let res := extract_segments_edl time_ranges run
      match res.2 with
      | Except.error e => (res.1, Except.error e.2)
      | Except.ok segs => (res.1, Except.ok (segs, generate_edl segs))

/-- main of src/process_video.py, analogously; concatRun is the result of
the final ffmpeg concat invocation, and on success the returned payload
is the segment paths and the written concat manifest content. -/
def main_pv (videoExists srtExists : Bool) (srtContent : List Char)
    (run : Nat → RunResult) (concatRun : RunResult) :
    List Nat × Except Nat (List String × String) :=
  if !videoExists then ([], Except.error 1)
  else if !srtExists then ([], Except.error 1)
  else
    let time_ranges := parse_srt_pv srtContent
    if time_ranges.isEmpty then ([], Except.error 1)
    else
      let res := extract_segments_pv "segments" time_ranges run
      match res.2 with
      | Except.error e => (res.1, Except.error e.2)
      | Except.ok segs =>
        let cl := create_concat_list segs
        if concatRun.returncode ≠ 0 then (res.1, Except.error 1)
        else (res.1, Except.ok (segs, cl))

-- ## Specification-side definitions used by the theorems

/-- All 18 captured characters are ASCII digits; true of every actual
match, and the well-formedness hypothesis for rendered entries. -/
def RawMatch.Digits (m : RawMatch) : Prop :=
  m.sh1.isDigit = true ∧ m.sh2.isDigit = true ∧ m.sm1.isDigit = true ∧ m.sm2.isDigit = true ∧
  m.ss1.isDigit = true ∧ m.ss2.isDigit = true ∧ m.sx1.isDigit = true ∧ m.sx2.isDigit = true ∧
  m.sx3.isDigit = true ∧ m.eh1.isDigit = true ∧ m.eh2.isDigit = true ∧ m.em1.isDigit = true ∧
  m.em2.isDigit = true ∧ m.es1.isDigit = true ∧ m.es2.isDigit = true ∧ m.ex1.isDigit = true ∧
  m.ex2.isDigit = true ∧ m.ex3.isDigit = true

instance (m : RawMatch) : Decidable m.Digits := by
  unfold RawMatch.Digits
  infer_instance

/-- The canonical 29-character timestamp-pair text HH:MM:SS,mmm --> HH:MM:SS,mmm
(single spaces around the arrow) carrying the given digits. -/
def renderMatch (m : RawMatch) : List Char :=
  [m.sh1, m.sh2, ':', m.sm1, m.sm2, ':', m.ss1, m.ss2, ',', m.sx1, m.sx2, m.sx3,
   ' ', '-', '-', '>', ' ',
   m.eh1, m.eh2, ':', m.em1, m.em2, ':', m.es1, m.es2, ',', m.ex1, m.ex2, m.ex3]

/-- A subtitle document: each entry is surrounding text (index lines,
subtitle text, blank lines) followed by its timestamp-pair line, with
trailing text at the end. -/
def renderDoc : List (List Char × RawMatch) → List Char → List Char
  | [], tail => tail
  | e :: rest, tail => e.1 ++ (renderMatch e.2 ++ renderDoc rest tail)

/-- The segment records the edl extractor is specified to return: one per
range, in order, indexed from idx. -/
def expectedSegsEdl : Nat → List (String × String) → List Seg
  | _, [] => []
  | idx, (s, e) :: rest => ⟨segmentFilename idx, s, e⟩ :: expectedSegsEdl (idx + 1) rest

/-- The segment paths the pv extractor is specified to return. -/
def expectedPathsPv (dir : String) : Nat → List (String × String) → List String
  | _, [] => []
  | idx, _ :: rest => osPathJoin dir (segmentFilename idx) :: expectedPathsPv dir (idx + 1) rest

/-- The two-digit decimal rendering of a value below 100. -/
def two (n : Nat) : List Char := [Char.ofNat (48 + n / 10), Char.ofNat (48 + n % 10)]

/-- The three-digit decimal rendering of a value below 1000. -/
def three (n : Nat) : List Char :=
  [Char.ofNat (48 + n / 100), Char.ofNat (48 + n / 10 % 10), Char.ofNat (48 + n % 10)]

/-- The HH:MM:SS.mmm string carrying the given field values: the shape
parse_srt hands to format_time_for_edl. -/
def timeStrOf (hh mm ss ms : Nat) : String :=
  String.mk (two hh ++ ':' :: two mm ++ ':' :: two ss ++ '.' :: three ms)

/-- The four-field timecode of the specification: HH:MM:SS:FF with
FF = floor(milliseconds / 1000 * 30). -/
def specTimecode (hh mm ss ms : Nat) : String :=
  String.mk (two hh) ++ ":" ++ String.mk (two mm) ++ ":" ++ String.mk (two ss) ++ ":" ++
    String.mk (two (ms * 30 / 1000))

/-- Right fold turning a list of lines into file content, each line
followed by a newline. -/
def unlines (ls : List String) : String := ls.foldr (fun a b => a ++ "\n" ++ b) ""

/-- One EDL event as the specification phrases it: zero-padded record
number, reel AX, track type V, edit type C, then source-in, source-out,
record-in, record-out timecodes, the record pair duplicating the source
pair. -/
def edlSpecEvent (p : Nat × Seg) : String :=
  let srcIn := format_time_for_edl p.2.start
  let srcOut := format_time_for_edl p.2.stop
  let recIn := srcIn
  let recOut := srcOut
  pyZFill 3 p.1 ++ "  AX       V     C        " ++
    srcIn ++ " " ++ srcOut ++ " " ++ recIn ++ " " ++ recOut

/-- The event lines of an EDL for the given segments, numbered from 1. -/
def edlSpecEvents (segments : List Seg) : List String :=
  ((List.range' 1 segments.length).zip segments).map edlSpecEvent

/-- All lines of the EDL file: the two header lines (title and
frame-mode declaration), a blank separator line, then the event lines. -/
def edlSpecLines (segments : List Seg) : List String :=
  "TITLE: Extracted Segments EDL" :: "FCM: NON-DROP FRAME" :: "" :: edlSpecEvents segments

/-- One manifest line without its terminating newline: the claimed shape
file <quote><escaped path><quote>. -/
def concatLineCore (p : String) : String :=
  "file " ++ String.mk [quoteCh] ++ escapedPath p ++ String.mk [quoteCh]

/-- The single recognized match of 00:00:00,000 --> 00:00:05,000. -/
def rmPlaceholder : RawMatch :=
  ⟨'0', '0', '0', '0', '0', '0', '0', '0', '0', '0', '0', '0', '0', '0', '5', '0', '0', '0'⟩

/-- A sample match 01:02:03,004 --> 05:06:07,008. -/
def rmSample : RawMatch :=
  ⟨'0', '1', '0', '2', '0', '3', '0', '0', '4', '0', '5', '0', '6', '0', '7', '0', '0', '8'⟩

/-- An oracle under which every external invocation succeeds. -/
def runOk : Nat → RunResult := fun _ => ⟨0, ""⟩

/-- An oracle whose second invocation fails with diagnostic text boom. -/
def runFailAt2 : Nat → RunResult := fun j => if j = 2 then ⟨1, "boom"⟩ else ⟨0, ""⟩

-- ## Frame computation lemmas

set_option maxHeartbeats 4000000 in
/-- On the domain 0..999 (every value the three-digit millisecond capture
can produce) the float computation coincides with the exact floor of
millis * 30 / 1000. -/
lemma framesFloat_eq_fin : ∀ m : Fin 1000, framesFloat m.1 = m.1 * 30 / 1000 := by
  decide

lemma framesFloat_eq (ms : Nat) (h : ms ≤ 999) :
    framesFloat ms = ms * 30 / 1000 :=
  framesFloat_eq_fin ⟨ms, by omega⟩

lemma framesFloat_lt_30 (ms : Nat) (h : ms ≤ 999) : framesFloat ms < 30 := by
  rw [framesFloat_eq ms h]
  omega

-- ## Scanner lemmas

lemma findAllAux_nil (fuel : Nat) : findAllAux fuel [] = [] := by
  cases fuel <;> rfl

lemma findAllAux_congr :
    ∀ f1 f2 : Nat, ∀ cs : List Char, cs.length ≤ f1 → cs.length ≤ f2 →
      findAllAux f1 cs = findAllAux f2 cs := by
  intro f1
  induction f1 with
  | zero =>
    intro f2 cs h1 h2
    have hnil : cs = [] := List.eq_nil_of_length_eq_zero (Nat.le_zero.mp h1)
    subst hnil
    rw [findAllAux_nil, findAllAux_nil]
  | succ k ih =>
    intro f2 cs h1 h2
    cases cs with
    | nil => rw [findAllAux_nil, findAllAux_nil]
    | cons c rest =>
      cases f2 with
      | zero => simp at h2
      | succ k2 =>
        simp only [findAllAux]
        cases hm : matchAt (c :: rest) with
        | some m =>
          have hd : ((c :: rest).drop 29).length ≤ k := by
            simp only [List.length_drop, List.length_cons]
            simp only [List.length_cons] at h1
            omega
          have hd2 : ((c :: rest).drop 29).length ≤ k2 := by
            simp only [List.length_drop, List.length_cons]
            simp only [List.length_cons] at h2
            omega
          rw [ih k2 _ hd hd2]
        | none =>
          have hr : rest.length ≤ k := by
            simp only [List.length_cons] at h1
            omega
          have hr2 : rest.length ≤ k2 := by
            simp only [List.length_cons] at h2
            omega
          exact ih k2 rest hr hr2

lemma findAll_cons_none {c : Char} {rest : List Char} (h : matchAt (c :: rest) = none) :
    findAll (c :: rest) = findAll rest := by
  simp only [findAll, List.length_cons, findAllAux, h]

lemma findAll_cons_some {c : Char} {rest : List Char} {m : RawMatch}
    (h : matchAt (c :: rest) = some m) :
    findAll (c :: rest) = m :: findAll ((c :: rest).drop 29) := by
  simp only [findAll, List.length_cons, findAllAux, h]
  refine List.cons_eq_cons.mpr ⟨rfl, ?_⟩
  apply findAllAux_congr
  · simp only [List.length_drop, List.length_cons]
    omega
  · exact Nat.le_refl _

/-- Any successful match has the character > at offset 15 (the tail of
the --> separator). -/
lemma matchAt_gt {cs : List Char} {m : RawMatch} (h : matchAt cs = some m) :
    cs.get? 15 = some '>' := by
  unfold matchAt at h
  split at h
  · rename_i a0 a1 c0 a2 a3 c1 a4 a5 c2 a6 a7 a8 w0 d0 d1 d2 w1 b0 b1 c3 b2 b3 c4 b4 b5 c5 b6 b7 b8 t
    split at h
    · rename_i hcond
      simp only [Bool.and_eq_true, beq_iff_eq] at hcond
      have hgt : d2 = '>' := by tauto
      subst hgt
      rfl
    · simp at h
  · simp at h

-- ## Rendering well-formed subtitle content and the scan round trip

lemma digit_ne_gt {c : Char} (h : c.isDigit = true) : c ≠ '>' := by
  intro hc
  subst hc
  exact absurd h (by decide)

lemma matchAt_render {m : RawMatch} (hd : m.Digits) (rest : List Char) :
    matchAt (renderMatch m ++ rest) = some m := by
  obtain ⟨h1, h2, h3, h4, h5, h6, h7, h8, h9, h10, h11, h12, h13, h14, h15, h16, h17, h18⟩ := hd
  simp only [renderMatch, List.cons_append, List.nil_append]
  simp [matchAt, isPySpace, h1, h2, h3, h4, h5, h6, h7, h8, h9, h10, h11, h12, h13, h14, h15,
    h16, h17, h18]

lemma findAll_eq_cons_of_matchAt {cs : List Char} {m : RawMatch} (h : matchAt cs = some m) :
    findAll cs = m :: findAll (cs.drop 29) := by
  cases cs with
  | nil => simp [matchAt] at h
  | cons c rest => exact findAll_cons_some h

lemma findAll_render {m : RawMatch} (hd : m.Digits) (rest : List Char) :
    findAll (renderMatch m ++ rest) = m :: findAll rest := by
  rw [findAll_eq_cons_of_matchAt (matchAt_render hd rest)]
  rw [show (29 : Nat) = (renderMatch m).length from rfl, List.drop_left]

/-- No character among the first 15 of a rendered timestamp line is the
arrow head, so no match can begin strictly inside preceding text and
reach across into the line. -/
lemma renderMatch_front_ne_gt {m : RawMatch} (hd : m.Digits) (rest : List Char) :
    ∀ c1 i, i ≤ 14 → (renderMatch m ++ rest).get? i = some c1 → c1 ≠ '>' := by
  obtain ⟨h1, h2, h3, h4, h5, h6, h7, h8, h9, h10, h11, h12, h13, h14, h15, h16, h17, h18⟩ := hd
  intro c1 i hi hg
  have htake : ((renderMatch m ++ rest).take 15).get? i = (renderMatch m ++ rest).get? i :=
    List.get?_take (by omega)
  have hmem : c1 ∈ (renderMatch m ++ rest).take 15 := List.get?_mem (htake.trans hg)
  have hset : (renderMatch m ++ rest).take 15 =
      [m.sh1, m.sh2, ':', m.sm1, m.sm2, ':', m.ss1, m.ss2, ',', m.sx1, m.sx2, m.sx3,
       ' ', '-', '-'] := rfl
  rw [hset] at hmem
  simp only [List.mem_cons, List.not_mem_nil, or_false] at hmem
  rcases hmem with rfl | rfl | rfl | rfl | rfl | rfl | rfl | rfl | rfl | rfl | rfl | rfl |
    rfl | rfl | rfl
  · exact digit_ne_gt h1
  · exact digit_ne_gt h2
  · decide
  · exact digit_ne_gt h3
  · exact digit_ne_gt h4
  · decide
  · exact digit_ne_gt h5
  · exact digit_ne_gt h6
  · decide
  · exact digit_ne_gt h7
  · exact digit_ne_gt h8
  · exact digit_ne_gt h9
  · decide
  · decide
  · decide

/-- Text that contains no arrow head cannot start a match that reaches
into what follows, provided the first 15 characters of what follows are
not arrow heads either: the scan just skips the text. -/
lemma findAll_junk_append :
    ∀ junk : List Char, (∀ c ∈ junk, c ≠ '>') →
      ∀ rest : List Char, (∀ c1 i, i ≤ 14 → rest.get? i = some c1 → c1 ≠ '>') →
        findAll (junk ++ rest) = findAll rest := by
  intro junk
  induction junk with
  | nil => intro _ rest _; simp
  | cons j tl ih =>
    intro hj rest hr
    have hnone : matchAt (j :: (tl ++ rest)) = none := by
      cases hm : matchAt (j :: (tl ++ rest)) with
      | none => rfl
      | some m =>
        exfalso
        have hgt := matchAt_gt hm
        have hgt2 : (tl ++ rest).get? 14 = some '>' := hgt
        by_cases hlen : 14 < tl.length
        · rw [List.get?_append hlen] at hgt2
          exact hj '>' (List.mem_cons_of_mem _ (List.get?_mem hgt2)) rfl
        · push_neg at hlen
          rw [List.get?_append_right hlen] at hgt2
          exact hr '>' (14 - tl.length) (by omega) hgt2 rfl
    rw [List.cons_append, findAll_cons_none hnone]
    exact ih (fun c hc => hj c (List.mem_cons_of_mem _ hc)) rest hr

/-- A document fragment with no arrow head holds no match at all. -/
lemma findAll_no_gt {cs : List Char} (h : ∀ c ∈ cs, c ≠ '>') : findAll cs = [] := by
  have := findAll_junk_append cs h [] (by intro c1 i _ hg; simp [List.get?] at hg)
  simpa using this

/-- Scanning a rendered subtitle document recovers exactly the rendered
timestamp pairs, in order. -/
lemma findAll_renderDoc :
    ∀ es : List (List Char × RawMatch), ∀ tail : List Char,
      (∀ e ∈ es, e.2.Digits) → (∀ e ∈ es, ∀ c ∈ e.1, c ≠ '>') →
      (∀ c ∈ tail, c ≠ '>') →
      findAll (renderDoc es tail) = es.map Prod.snd := by
  intro es
  induction es with
  | nil => intro tail _ _ htail; simpa [renderDoc] using findAll_no_gt htail
  | cons e rest ih =>
    intro tail hdig hjunk htail
    have hd : e.2.Digits := hdig e (List.mem_cons_self _ _)
    show findAll (e.1 ++ (renderMatch e.2 ++ renderDoc rest tail)) = _
    rw [findAll_junk_append e.1 (hjunk e (List.mem_cons_self _ _)) _
      (renderMatch_front_ne_gt hd _)]
    rw [findAll_render hd]
    rw [ih tail (fun x hx => hdig x (List.mem_cons_of_mem _ hx))
      (fun x hx => hjunk x (List.mem_cons_of_mem _ hx)) htail]
    rfl

-- ## Parse-level lemmas

lemma mk2_eq_00 (a b : Char) : (String.mk [a, b] = "00") ↔ (a = '0' ∧ b = '0') := by
  constructor
  · intro h
    have hdata := congrArg String.data h
    simpa using hdata
  · rintro ⟨rfl, rfl⟩
    rfl

/-- The placeholder test of the edl script holds exactly when the hour
and minute characters of the first start timestamp are all zero. -/
lemma placeholder_edl_iff (m : RawMatch) :
    (m.gStartH == "00" && m.gStartM == "00") = true ↔
      (m.sh1 = '0' ∧ m.sh2 = '0' ∧ m.sm1 = '0' ∧ m.sm2 = '0') := by
  simp only [Bool.and_eq_true, beq_iff_eq, RawMatch.gStartH, RawMatch.gStartM,
    mk2_eq_00, and_assoc]

/-- The first capture group of the pv script is an 8-character HH:MM:SS
string; compared with the 2-character string 00 it always differs, so the
placeholder test of the pv script never succeeds. -/
lemma gStartHMS_ne_00 (m : RawMatch) : (m.gStartHMS == "00") = false := by
  apply beq_eq_false_iff_ne.mpr
  intro h
  have hdata := congrArg String.data h
  simp [RawMatch.gStartHMS] at hdata

lemma parse_srt_edl_cons {content : List Char} {m0 : RawMatch} {rest : List RawMatch}
    (h : findAll content = m0 :: rest) :
    parse_srt_edl content =
      (if m0.sh1 = '0' ∧ m0.sh2 = '0' ∧ m0.sm1 = '0' ∧ m0.sm2 = '0' then rest
       else m0 :: rest).map (fun m => (m.startStrEdl, m.endStrEdl)) := by
  simp only [parse_srt_edl]
  rw [h]
  by_cases hc : m0.sh1 = '0' ∧ m0.sh2 = '0' ∧ m0.sm1 = '0' ∧ m0.sm2 = '0'
  · rw [if_pos hc]
    simp only [dropPlaceholderEdl, (placeholder_edl_iff m0).mpr hc, if_true]
  · rw [if_neg hc]
    have hb : (m0.gStartH == "00" && m0.gStartM == "00") = false := by
      cases hb2 : (m0.gStartH == "00" && m0.gStartM == "00") with
      | false => rfl
      | true => exact absurd ((placeholder_edl_iff m0).mp hb2) hc
    simp only [dropPlaceholderEdl, hb, Bool.false_eq_true, if_false]

lemma parse_srt_pv_cons {content : List Char} {m0 : RawMatch} {rest : List RawMatch}
    (h : findAll content = m0 :: rest) :
    parse_srt_pv content = (m0 :: rest).map (fun m => (m.startStrPv, m.endStrPv)) := by
  simp only [parse_srt_pv]
  rw [h]
  simp [dropPlaceholderPv, gStartHMS_ne_00]

lemma parse_srt_edl_nil {content : List Char} (h : findAll content = []) :
    parse_srt_edl content = [] := by
  simp only [parse_srt_edl]
  rw [h]
  rfl

lemma parse_srt_pv_nil {content : List Char} (h : findAll content = []) :
    parse_srt_pv content = [] := by
  simp only [parse_srt_pv]
  rw [h]
  rfl

lemma strTimeVal_startStrEdl (m : RawMatch) : strTimeVal m.startStrEdl = m.startVal := rfl

lemma strTimeVal_endStrEdl (m : RawMatch) : strTimeVal m.endStrEdl = m.endVal := rfl

lemma strTimeVal_startStrPv (m : RawMatch) : strTimeVal m.startStrPv = m.startVal := rfl

lemma strTimeVal_endStrPv (m : RawMatch) : strTimeVal m.endStrPv = m.endVal := rfl

-- ## Membership lemmas for the placeholder-drop step

lemma mem_dropPlaceholderEdl {m : RawMatch} {l : List RawMatch}
    (h : m ∈ dropPlaceholderEdl l) : m ∈ l := by
  cases l with
  | nil => simpa [dropPlaceholderEdl] using h
  | cons m0 rest =>
    simp only [dropPlaceholderEdl] at h
    split at h
    · exact List.mem_cons_of_mem _ h
    · exact h

lemma mem_dropPlaceholderPv {m : RawMatch} {l : List RawMatch}
    (h : m ∈ dropPlaceholderPv l) : m ∈ l := by
  cases l with
  | nil => simpa [dropPlaceholderPv] using h
  | cons m0 rest =>
    simp only [dropPlaceholderPv] at h
    split at h
    · exact List.mem_cons_of_mem _ h
    · exact h

-- ## Claim C1

/-- Claim C1 counterexample.  The claim states that both parse_srt
variants drop the first recognized pair exactly when its start is
00:00:00,000 and that no other condition drops a pair.  Both halves fail:
the pv variant keeps a leading pair whose start is exactly 00:00:00,000
(its placeholder test compares the 8-character HH:MM:SS group to the
2-character string 00, which never holds), and the edl variant drops a
leading pair whose start 00:00:30,123 is not the placeholder (its test
only looks at the hour and minute groups). -/
theorem claim_C1_counterexample :
    parse_srt_pv "00:00:00,000 --> 00:00:05,000".data =
      [("00:00:00.000", "00:00:05.000")] ∧
    (findAll "00:00:00,000 --> 00:00:05,000".data).length = 1 ∧
    parse_srt_edl "00:00:30,123 --> 00:00:40,000".data = [] ∧
    (findAll "00:00:30,123 --> 00:00:40,000".data).length = 1 := by
  refine ⟨by decide, by decide, by decide, by decide⟩

/-- Claim C1 (amended): whenever the scan recognizes at least one pair,
the pv variant of parse_srt returns all recognized pairs (its placeholder
test never fires), while the edl variant drops the first pair exactly
when the four hour and minute characters of its start are all zero
(regardless of seconds and milliseconds), returning the rest. -/
theorem claim_C1_amended {content : List Char} {m0 : RawMatch} {rest : List RawMatch}
    (h : findAll content = m0 :: rest) :
    parse_srt_pv content = (m0 :: rest).map (fun m => (m.startStrPv, m.endStrPv)) ∧
    parse_srt_edl content =
      (if m0.sh1 = '0' ∧ m0.sh2 = '0' ∧ m0.sm1 = '0' ∧ m0.sm2 = '0' then rest
       else m0 :: rest).map (fun m => (m.startStrEdl, m.endStrEdl)) :=
  ⟨parse_srt_pv_cons h, parse_srt_edl_cons h⟩

theorem claim_C1_witness :
    parse_srt_pv "00:00:00,000 --> 00:00:05,000".data =
      ([rmPlaceholder] : List RawMatch).map (fun m => (m.startStrPv, m.endStrPv)) ∧
    parse_srt_edl "00:00:00,000 --> 00:00:05,000".data =
      (if rmPlaceholder.sh1 = '0' ∧ rmPlaceholder.sh2 = '0' ∧ rmPlaceholder.sm1 = '0' ∧
          rmPlaceholder.sm2 = '0' then ([] : List RawMatch)
       else [rmPlaceholder]).map (fun m => (m.startStrEdl, m.endStrEdl)) :=
  claim_C1_amended (by decide)

-- ## Claim C2

/-- Claim C2 counterexample.  The claim states that on well-formed
content whose first pair's start is not the placeholder 00:00:00,000,
parse_srt returns all N recognized pairs.  The edl variant violates it:
content whose single pair starts at 00:00:05,000 (not the placeholder) is
parsed to the empty list, because the drop test only inspects the hour
and minute groups. -/
theorem claim_C2_counterexample :
    (findAll "00:00:05,000 --> 00:00:10,000".data).map
        (fun m => (m.startStrEdl, m.endStrEdl)) =
      [("00:00:05.000", "00:00:10.000")] ∧
    parse_srt_edl "00:00:05,000 --> 00:00:10,000".data = [] := by
  refine ⟨by decide, by decide⟩

/-- Claim C2 (amended): for well-formed subtitle content — here rendered
as N entries, each one digit-containing surrounding text without the
arrow-head character followed by a conforming timestamp-pair line, plus
trailing text — whose first pair's start hour and minute characters are
not all zero (in particular, not the placeholder 00:00:00,000), both
parse_srt variants return exactly N time ranges, in input order. -/
theorem claim_C2_amended (es : List (List Char × RawMatch)) (tail : List Char)
    (e0 : List Char × RawMatch) (rest : List (List Char × RawMatch))
    (hes : es = e0 :: rest)
    (hdig : ∀ e ∈ es, e.2.Digits)
    (hjunk : ∀ e ∈ es, ∀ c ∈ e.1, c ≠ '>')
    (htail : ∀ c ∈ tail, c ≠ '>')
    (hfirst : ¬(e0.2.sh1 = '0' ∧ e0.2.sh2 = '0' ∧ e0.2.sm1 = '0' ∧ e0.2.sm2 = '0')) :
    parse_srt_edl (renderDoc es tail) =
      es.map (fun e => (e.2.startStrEdl, e.2.endStrEdl)) ∧
    parse_srt_pv (renderDoc es tail) =
      es.map (fun e => (e.2.startStrPv, e.2.endStrPv)) ∧
    (parse_srt_edl (renderDoc es tail)).length = es.length := by
  subst hes
  have hall : findAll (renderDoc (e0 :: rest) tail) = e0.2 :: rest.map Prod.snd := by
    simpa using findAll_renderDoc (e0 :: rest) tail hdig hjunk htail
  have h1 : parse_srt_edl (renderDoc (e0 :: rest) tail) =
      (e0 :: rest).map (fun e => (e.2.startStrEdl, e.2.endStrEdl)) := by
    rw [parse_srt_edl_cons hall, if_neg hfirst]
    simp [List.map_map, Function.comp]
  refine ⟨h1, ?_, ?_⟩
  · rw [parse_srt_pv_cons hall]
    simp [List.map_map, Function.comp]
  · rw [h1]
    simp

theorem claim_C2_witness :
    parse_srt_edl (renderDoc [(([] : List Char), rmSample)] []) =
      [(([] : List Char), rmSample)].map (fun e => (e.2.startStrEdl, e.2.endStrEdl)) ∧
    parse_srt_pv (renderDoc [(([] : List Char), rmSample)] []) =
      [(([] : List Char), rmSample)].map (fun e => (e.2.startStrPv, e.2.endStrPv)) ∧
    (parse_srt_edl (renderDoc [(([] : List Char), rmSample)] [])).length =
      [(([] : List Char), rmSample)].length :=
  claim_C2_amended [([], rmSample)] [] ([], rmSample) [] rfl (by decide) (by decide)
    (by decide) (by decide)

-- ## Claim C4

/-- Claim C4 counterexample.  The claim states that every TimeRange
produced by parse_srt satisfies start < end.  Neither variant validates
the ranges: content with the single pair 01:00:10,000 --> 01:00:05,000 is
parsed by both variants to a range whose end value is strictly below its
start value. -/
theorem claim_C4_counterexample :
    parse_srt_edl "01:00:10,000 --> 01:00:05,000".data =
      [("01:00:10.000", "01:00:05.000")] ∧
    parse_srt_pv "01:00:10,000 --> 01:00:05,000".data =
      [("01:00:10.000", "01:00:05.000")] ∧
    strTimeVal "01:00:05.000" < strTimeVal "01:00:10.000" := by
  refine ⟨by decide, by decide, by decide⟩

/-- Claim C4 (amended): parse_srt performs no ordering validation; it
merely preserves the matched digit fields.  Consequently every produced
TimeRange satisfies start < end exactly under the assumption that every
recognized pair of the input already satisfies it. -/
theorem claim_C4_amended {content : List Char}
    (h : ∀ m ∈ findAll content, m.startVal < m.endVal) :
    (∀ pr ∈ parse_srt_edl content, strTimeVal pr.1 < strTimeVal pr.2) ∧
    (∀ pr ∈ parse_srt_pv content, strTimeVal pr.1 < strTimeVal pr.2) := by
  constructor
  · intro pr hpr
    simp only [parse_srt_edl, List.mem_map] at hpr
    obtain ⟨m, hm, rfl⟩ := hpr
    simpa [strTimeVal_startStrEdl, strTimeVal_endStrEdl] using
      h m (mem_dropPlaceholderEdl hm)
  · intro pr hpr
    simp only [parse_srt_pv, List.mem_map] at hpr
    obtain ⟨m, hm, rfl⟩ := hpr
    simpa [strTimeVal_startStrPv, strTimeVal_endStrPv] using
      h m (mem_dropPlaceholderPv hm)

theorem claim_C4_witness :
    (∀ pr ∈ parse_srt_edl "00:01:00,000 --> 00:01:05,000".data,
      strTimeVal pr.1 < strTimeVal pr.2) ∧
    (∀ pr ∈ parse_srt_pv "00:01:00,000 --> 00:01:05,000".data,
      strTimeVal pr.1 < strTimeVal pr.2) :=
  claim_C4_amended (by decide)

-- ## Claim C8

/-- Claim C8: on subtitle content in which no substring matches the
timestamp-pair pattern, both parse_srt variants return the empty
sequence, and both drivers treat the empty result as fatal: they perform
no ffmpeg invocation at all and exit with status 1. -/
theorem claim_C8 (content : List Char) (run : Nat → RunResult) (crun : RunResult)
    (h : findAll content = []) :
    parse_srt_edl content = [] ∧ parse_srt_pv content = [] ∧
    main_edl true true content run = ([], Except.error 1) ∧
    main_pv true true content run crun = ([], Except.error 1) := by
  refine ⟨parse_srt_edl_nil h, parse_srt_pv_nil h, ?_, ?_⟩
  · simp [main_edl, parse_srt_edl_nil h]
  · simp [main_pv, parse_srt_pv_nil h]

theorem claim_C8_witness :
    parse_srt_edl "a subtitle file with no timed entries".data = [] ∧
    parse_srt_pv "a subtitle file with no timed entries".data = [] ∧
    main_edl true true "a subtitle file with no timed entries".data (fun _ => ⟨0, ""⟩) =
      ([], Except.error 1) ∧
    main_pv true true "a subtitle file with no timed entries".data (fun _ => ⟨0, ""⟩) ⟨0, ""⟩ =
      ([], Except.error 1) :=
  claim_C8 _ _ _ (by decide)

-- ## Expected extractor output (specification-side descriptions)

lemma expectedSegsEdl_map_pairs :
    ∀ (tr : List (String × String)) (idx : Nat),
      (expectedSegsEdl idx tr).map (fun s => (s.start, s.stop)) = tr := by
  intro tr
  induction tr with
  | nil => intro idx; rfl
  | cons p rest ih =>
    intro idx
    obtain ⟨s, e⟩ := p
    simp [expectedSegsEdl, ih]

lemma expectedSegsEdl_length :
    ∀ (tr : List (String × String)) (idx : Nat),
      (expectedSegsEdl idx tr).length = tr.length := by
  intro tr
  induction tr with
  | nil => intro idx; rfl
  | cons p rest ih =>
    intro idx
    obtain ⟨s, e⟩ := p
    simp [expectedSegsEdl, ih]

lemma expectedSegsEdl_map_filename :
    ∀ (tr : List (String × String)) (idx : Nat),
      (expectedSegsEdl idx tr).map Seg.filename =
        (List.range' idx tr.length).map segmentFilename := by
  intro tr
  induction tr with
  | nil => intro idx; rfl
  | cons p rest ih =>
    intro idx
    obtain ⟨s, e⟩ := p
    simp [expectedSegsEdl, List.range', ih]

lemma expectedPathsPv_eq :
    ∀ (tr : List (String × String)) (idx : Nat) (dir : String),
      expectedPathsPv dir idx tr =
        (List.range' idx tr.length).map (fun i => osPathJoin dir (segmentFilename i)) := by
  intro tr
  induction tr with
  | nil => intro idx dir; rfl
  | cons p rest ih =>
    intro idx dir
    simp [expectedPathsPv, List.range', ih]

-- ## Extractor success and failure behaviour

lemma extract_edl_go_ok (run : Nat → RunResult) :
    ∀ (tr : List (String × String)) (idx : Nat),
      (∀ j, idx ≤ j → j < idx + tr.length → (run j).returncode = 0) →
      extract_segments_edl_go run idx tr =
        (List.range' idx tr.length, Except.ok (expectedSegsEdl idx tr)) := by
  intro tr
  induction tr with
  | nil => intro idx _; rfl
  | cons p rest ih =>
    intro idx h
    obtain ⟨s, e⟩ := p
    have h0 : (run idx).returncode = 0 :=
      h idx (Nat.le_refl _) (by simp only [List.length_cons]; omega)
    simp only [extract_segments_edl_go, h0, ne_eq, not_true_eq_false, if_false,
      Nat.zero_ne_one]
    rw [ih (idx + 1) (by
      intro j hj1 hj2
      exact h j (by omega) (by simp only [List.length_cons]; omega))]
    simp [List.range', expectedSegsEdl, Except.map]

lemma extract_pv_go_ok (dir : String) (run : Nat → RunResult) :
    ∀ (tr : List (String × String)) (idx : Nat),
      (∀ j, idx ≤ j → j < idx + tr.length → (run j).returncode = 0) →
      extract_segments_pv_go dir run idx tr =
        (List.range' idx tr.length, Except.ok (expectedPathsPv dir idx tr)) := by
  intro tr
  induction tr with
  | nil => intro idx _; rfl
  | cons p rest ih =>
    intro idx h
    obtain ⟨s, e⟩ := p
    have h0 : (run idx).returncode = 0 :=
      h idx (Nat.le_refl _) (by simp only [List.length_cons]; omega)
    simp only [extract_segments_pv_go, h0, ne_eq, not_true_eq_false, if_false]
    rw [ih (idx + 1) (by
      intro j hj1 hj2
      exact h j (by omega) (by simp only [List.length_cons]; omega))]
    simp [List.range', expectedPathsPv, Except.map]

lemma extract_edl_go_fail (run : Nat → RunResult) :
    ∀ (tr : List (String × String)) (idx i : Nat),
      idx ≤ i → i < idx + tr.length →
      (∀ j, idx ≤ j → j < i → (run j).returncode = 0) →
      (run i).returncode ≠ 0 →
      extract_segments_edl_go run idx tr =
        (List.range' idx (i + 1 - idx),
          Except.error (extractErrMsg i (run i).stderr, 1)) := by
  intro tr
  induction tr with
  | nil =>
    intro idx i h1 h2 h3 h4
    simp at h2
    omega
  | cons p rest ih =>
    intro idx i h1 h2 h3 h4
    obtain ⟨s, e⟩ := p
    by_cases hidx : idx = i
    · subst hidx
      simp only [extract_segments_edl_go]
      rw [if_pos h4]
      have hone : idx + 1 - idx = 1 := by omega
      rw [hone]
      rfl
    · have hlt : idx < i := Nat.lt_of_le_of_ne h1 hidx
      have h0 : (run idx).returncode = 0 := h3 idx (Nat.le_refl _) hlt
      simp only [extract_segments_edl_go, h0, ne_eq, not_true_eq_false, if_false]
      rw [ih (idx + 1) i (by omega) (by simp only [List.length_cons] at h2 ⊢; omega)
        (fun j hj1 hj2 => h3 j (by omega) hj2) h4]
      have hsplit : i + 1 - idx = (i + 1 - (idx + 1)) + 1 := by omega
      rw [hsplit]
      simp [List.range', Except.map]

lemma extract_pv_go_fail (dir : String) (run : Nat → RunResult) :
    ∀ (tr : List (String × String)) (idx i : Nat),
      idx ≤ i → i < idx + tr.length →
      (∀ j, idx ≤ j → j < i → (run j).returncode = 0) →
      (run i).returncode ≠ 0 →
      extract_segments_pv_go dir run idx tr =
        (List.range' idx (i + 1 - idx),
          Except.error (extractErrMsg i (run i).stderr, 1)) := by
  intro tr
  induction tr with
  | nil =>
    intro idx i h1 h2 h3 h4
    simp at h2
    omega
  | cons p rest ih =>
    intro idx i h1 h2 h3 h4
    obtain ⟨s, e⟩ := p
    by_cases hidx : idx = i
    · subst hidx
      simp only [extract_segments_pv_go]
      rw [if_pos h4]
      have hone : idx + 1 - idx = 1 := by omega
      rw [hone]
      rfl
    · have hlt : idx < i := Nat.lt_of_le_of_ne h1 hidx
      have h0 : (run idx).returncode = 0 := h3 idx (Nat.le_refl _) hlt
      simp only [extract_segments_pv_go, h0, ne_eq, not_true_eq_false, if_false]
      rw [ih (idx + 1) i (by omega) (by simp only [List.length_cons] at h2 ⊢; omega)
        (fun j hj1 hj2 => h3 j (by omega) hj2) h4]
      have hsplit : i + 1 - idx = (i + 1 - (idx + 1)) + 1 := by omega
      rw [hsplit]
      simp [List.range', Except.map]

lemma mem_range'_lt : ∀ (n s j : Nat), j ∈ List.range' s n → j < s + n := by
  intro n
  induction n with
  | zero => intro s j h; simp [List.range'] at h
  | succ k ih =>
    intro s j h
    simp only [List.range'] at h
    rcases List.mem_cons.mp h with rfl | h2
    · omega
    · have := ih (s + 1) j h2
      omega

-- ## Claim C5

/-- Claim C5: when every external trim succeeds, both extractors return
one segment per input TimeRange, in input order, the i-th (1-based)
segment carrying the name segment_ followed by the ordinal zero-padded
to 3 digits and the fixed .mov extension.  The padding is independent of
the total count (it is a function of the ordinal alone); segment 7 is
segment_007.mov, and every name with ordinal below 1000 has exactly
8 + 3 + 4 = 15 characters. -/
theorem claim_C5 (tr : List (String × String)) (run : Nat → RunResult) (dir : String)
    (h : ∀ j, 1 ≤ j → j ≤ tr.length → (run j).returncode = 0) :
    extract_segments_edl tr run =
      (List.range' 1 tr.length, Except.ok (expectedSegsEdl 1 tr)) ∧
    extract_segments_pv dir tr run =
      (List.range' 1 tr.length, Except.ok (expectedPathsPv dir 1 tr)) ∧
    (expectedSegsEdl 1 tr).map (fun s => (s.start, s.stop)) = tr ∧
    (expectedSegsEdl 1 tr).length = tr.length ∧
    (expectedSegsEdl 1 tr).map Seg.filename =
      (List.range' 1 tr.length).map segmentFilename ∧
    expectedPathsPv dir 1 tr =
      (List.range' 1 tr.length).map (fun i => osPathJoin dir (segmentFilename i)) ∧
    segmentFilename 7 = "segment_007.mov" ∧
    (∀ n : Fin 1000, (segmentFilename n.1).length = 15) := by
  have hgo : ∀ j, 1 ≤ j → j < 1 + tr.length → (run j).returncode = 0 := by
    intro j h1 h2
    exact h j h1 (by omega)
  refine ⟨extract_edl_go_ok run tr 1 hgo, extract_pv_go_ok dir run tr 1 hgo,
    expectedSegsEdl_map_pairs tr 1, expectedSegsEdl_length tr 1,
    expectedSegsEdl_map_filename tr 1, expectedPathsPv_eq tr 1 dir, by decide, by decide⟩

theorem claim_C5_witness :
    extract_segments_edl [("a", "b"), ("c", "d")] runOk =
      (List.range' 1 ([("a", "b"), ("c", "d")] : List (String × String)).length,
        Except.ok (expectedSegsEdl 1 [("a", "b"), ("c", "d")])) ∧
    extract_segments_pv "segments" [("a", "b"), ("c", "d")] runOk =
      (List.range' 1 ([("a", "b"), ("c", "d")] : List (String × String)).length,
        Except.ok (expectedPathsPv "segments" 1 [("a", "b"), ("c", "d")])) ∧
    (expectedSegsEdl 1 [("a", "b"), ("c", "d")]).map (fun s => (s.start, s.stop)) =
      [("a", "b"), ("c", "d")] ∧
    (expectedSegsEdl 1 [("a", "b"), ("c", "d")]).length =
      ([("a", "b"), ("c", "d")] : List (String × String)).length ∧
    (expectedSegsEdl 1 [("a", "b"), ("c", "d")]).map Seg.filename =
      (List.range' 1 ([("a", "b"), ("c", "d")] : List (String × String)).length).map
        segmentFilename ∧
    expectedPathsPv "segments" 1 [("a", "b"), ("c", "d")] =
      (List.range' 1 ([("a", "b"), ("c", "d")] : List (String × String)).length).map
        (fun i => osPathJoin "segments" (segmentFilename i)) ∧
    segmentFilename 7 = "segment_007.mov" ∧
    (∀ n : Fin 1000, (segmentFilename n.1).length = 15) :=
  claim_C5 [("a", "b"), ("c", "d")] runOk "segments" (by intro j h1 h2; rfl)

-- ## Claim C6

/-- Claim C6: if the trim for segment i fails (non-zero exit status)
while all earlier trims succeed, both extractors abort at i: the
invocations performed are exactly 1..i (none beyond i), the returned
error carries the diagnostic message embedding the stderr text of the
failed invocation, and the run exits with the non-zero status 1. -/
theorem claim_C6 (tr : List (String × String)) (run : Nat → RunResult) (dir : String)
    (i : Nat) (h1 : 1 ≤ i) (h2 : i ≤ tr.length)
    (h3 : ∀ j, 1 ≤ j → j < i → (run j).returncode = 0)
    (h4 : (run i).returncode ≠ 0) :
    extract_segments_edl tr run =
      (List.range' 1 i, Except.error (extractErrMsg i (run i).stderr, 1)) ∧
    extract_segments_pv dir tr run =
      (List.range' 1 i, Except.error (extractErrMsg i (run i).stderr, 1)) ∧
    (∀ j ∈ List.range' 1 i, j ≤ i) := by
  have he := extract_edl_go_fail run tr 1 i h1 (by omega) h3 h4
  have hp := extract_pv_go_fail dir run tr 1 i h1 (by omega) h3 h4
  have hone : i + 1 - 1 = i := by omega
  rw [hone] at he hp
  refine ⟨he, hp, ?_⟩
  intro j hj
  have := mem_range'_lt i 1 j hj
  omega

theorem claim_C6_witness :
    extract_segments_edl [("a", "b"), ("c", "d"), ("e", "f")] runFailAt2 =
      (List.range' 1 2, Except.error (extractErrMsg 2 (runFailAt2 2).stderr, 1)) ∧
    extract_segments_pv "segments" [("a", "b"), ("c", "d"), ("e", "f")] runFailAt2 =
      (List.range' 1 2, Except.error (extractErrMsg 2 (runFailAt2 2).stderr, 1)) ∧
    (∀ j ∈ List.range' 1 2, j ≤ 2) :=
  claim_C6 [("a", "b"), ("c", "d"), ("e", "f")] runFailAt2 "segments" 2 (by decide)
    (by decide)
    (by
      intro j hj1 hj2
      have hj : j = 1 := by omega
      simp [runFailAt2, hj])
    (by decide)

-- ## Symbolic evaluation of the timecode formatter

lemma digitChar_facts (d : Nat) (h : d ≤ 9) :
    ((Char.ofNat (48 + d) == ':') = false) ∧ ((Char.ofNat (48 + d) == '.') = false) ∧
      (Char.ofNat (48 + d)).toNat = 48 + d := by
  interval_cases d <;> refine ⟨by decide, by decide, by decide⟩

lemma splitOnChar_timeStr (hh mm ss ms : Nat)
    (h1 : hh ≤ 99) (h2 : mm ≤ 99) (h3 : ss ≤ 99) (h4 : ms ≤ 999) :
    splitOnChar ':' (timeStrOf hh mm ss ms).data =
      [two hh, two mm, two ss ++ '.' :: three ms] := by
  obtain ⟨ha1, -, -⟩ := digitChar_facts (hh / 10) (by omega)
  obtain ⟨ha2, -, -⟩ := digitChar_facts (hh % 10) (by omega)
  obtain ⟨ha3, -, -⟩ := digitChar_facts (mm / 10) (by omega)
  obtain ⟨ha4, -, -⟩ := digitChar_facts (mm % 10) (by omega)
  obtain ⟨ha5, -, -⟩ := digitChar_facts (ss / 10) (by omega)
  obtain ⟨ha6, -, -⟩ := digitChar_facts (ss % 10) (by omega)
  obtain ⟨ha7, -, -⟩ := digitChar_facts (ms / 100) (by omega)
  obtain ⟨ha8, -, -⟩ := digitChar_facts (ms / 10 % 10) (by omega)
  obtain ⟨ha9, -, -⟩ := digitChar_facts (ms % 10) (by omega)
  simp [timeStrOf, two, three, splitOnChar, ha1, ha2, ha3, ha4, ha5, ha6, ha7, ha8, ha9]

lemma splitOnChar_secPart (ss ms : Nat) (h3 : ss ≤ 99) (h4 : ms ≤ 999) :
    splitOnChar '.' (two ss ++ '.' :: three ms) = [two ss, three ms] := by
  obtain ⟨-, hb5, -⟩ := digitChar_facts (ss / 10) (by omega)
  obtain ⟨-, hb6, -⟩ := digitChar_facts (ss % 10) (by omega)
  obtain ⟨-, hb7, -⟩ := digitChar_facts (ms / 100) (by omega)
  obtain ⟨-, hb8, -⟩ := digitChar_facts (ms / 10 % 10) (by omega)
  obtain ⟨-, hb9, -⟩ := digitChar_facts (ms % 10) (by omega)
  simp [two, three, splitOnChar, hb5, hb6, hb7, hb8, hb9]

lemma pyInt_two (n : Nat) (h : n ≤ 99) : pyInt (two n) = n := by
  obtain ⟨-, -, hc1⟩ := digitChar_facts (n / 10) (by omega)
  obtain ⟨-, -, hc2⟩ := digitChar_facts (n % 10) (by omega)
  simp [pyInt, two, hc1, hc2]
  omega

lemma pyInt_three (n : Nat) (h : n ≤ 999) : pyInt (three n) = n := by
  obtain ⟨-, -, hc1⟩ := digitChar_facts (n / 100) (by omega)
  obtain ⟨-, -, hc2⟩ := digitChar_facts (n / 10 % 10) (by omega)
  obtain ⟨-, -, hc3⟩ := digitChar_facts (n % 10) (by omega)
  simp [pyInt, three, hc1, hc2, hc3]
  omega

lemma getD3_0 (a b c d : List Char) : [a, b, c].getD 0 d = a := rfl

lemma getD3_1 (a b c d : List Char) : [a, b, c].getD 1 d = b := rfl

lemma getD3_2 (a b c d : List Char) : [a, b, c].getD 2 d = c := rfl

lemma getD2_0 (a b d : List Char) : [a, b].getD 0 d = a := rfl

lemma getD2_1 (a b d : List Char) : [a, b].getD 1 d = b := rfl

/-- Full symbolic evaluation of format_time_for_edl on the canonical
HH:MM:SS.mmm input shape. -/
lemma format_time_eval (hh mm ss ms : Nat)
    (h1 : hh ≤ 99) (h2 : mm ≤ 99) (h3 : ss ≤ 99) (h4 : ms ≤ 999) :
    format_time_for_edl (timeStrOf hh mm ss ms) =
      pyZFill 2 hh ++ ":" ++ pyZFill 2 mm ++ ":" ++ pyZFill 2 ss ++ ":" ++
        pyZFill 2 (framesFloat ms) := by
  simp only [format_time_for_edl, splitOnChar_timeStr hh mm ss ms h1 h2 h3 h4,
    getD3_0, getD3_1, getD3_2, splitOnChar_secPart ss ms h3 h4, getD2_0, getD2_1,
    pyInt_two hh h1, pyInt_two mm h2, pyInt_two ss h3, pyInt_three ms h4]

lemma pyZFill_two_fin : ∀ n : Fin 100, pyZFill 2 n.1 = String.mk (two n.1) := by decide

lemma pyZFill_two_eq (n : Nat) (h : n ≤ 99) : pyZFill 2 n = String.mk (two n) :=
  pyZFill_two_fin ⟨n, by omega⟩

-- ## Claim C3

/-- Claim C3: on every canonical HH:MM:SS.mmm input (fields in the ranges
the parser guarantees), format_time_for_edl returns the four-field form
HH:MM:SS:FF with FF = floor(milliseconds / 1000 * 30); being a pure
function of its argument in this model, it is deterministic by
construction.  In particular 00:01:02,500 at 30 fps gives 00:01:02:15. -/
theorem claim_C3 (hh mm ss ms : Nat)
    (h1 : hh ≤ 99) (h2 : mm ≤ 99) (h3 : ss ≤ 99) (h4 : ms ≤ 999) :
    format_time_for_edl (timeStrOf hh mm ss ms) = specTimecode hh mm ss ms ∧
    format_time_for_edl "00:01:02.500" = "00:01:02:15" := by
  constructor
  · rw [format_time_eval hh mm ss ms h1 h2 h3 h4, specTimecode,
      pyZFill_two_eq hh h1, pyZFill_two_eq mm h2, pyZFill_two_eq ss h3,
      pyZFill_two_eq (framesFloat ms) (by have := framesFloat_lt_30 ms h4; omega),
      framesFloat_eq ms h4]
  · decide

theorem claim_C3_witness :
    format_time_for_edl (timeStrOf 0 1 2 500) = specTimecode 0 1 2 500 ∧
    format_time_for_edl "00:01:02.500" = "00:01:02:15" :=
  claim_C3 0 1 2 500 (by decide) (by decide) (by decide) (by decide)

-- ## Claim C10

/-- Claim C10: for every millisecond value the parser can produce
(0..999), the frame field is at most 29, strictly below the assumed
30 fps rate, so the FF ≥ frameRate carry case flagged in the spec is
unreachable; and the first eight characters (HH:MM:SS) of the output
equal those of the input unchanged. -/
theorem claim_C10 (hh mm ss ms : Nat)
    (h1 : hh ≤ 99) (h2 : mm ≤ 99) (h3 : ss ≤ 99) (h4 : ms ≤ 999) :
    framesFloat ms < 30 ∧
    (format_time_for_edl (timeStrOf hh mm ss ms)).data.take 8 =
      (timeStrOf hh mm ss ms).data.take 8 := by
  refine ⟨framesFloat_lt_30 ms h4, ?_⟩
  rw [format_time_eval hh mm ss ms h1 h2 h3 h4,
    pyZFill_two_eq hh h1, pyZFill_two_eq mm h2, pyZFill_two_eq ss h3,
    pyZFill_two_eq (framesFloat ms) (by have := framesFloat_lt_30 ms h4; omega)]
  rfl

theorem claim_C10_witness :
    framesFloat 999 < 30 ∧
    (format_time_for_edl (timeStrOf 1 2 3 999)).data.take 8 =
      (timeStrOf 1 2 3 999).data.take 8 :=
  claim_C10 1 2 3 999 (by decide) (by decide) (by decide) (by decide)

-- ## Claim C7

lemma data_append (a b : String) : (a ++ b).data = a.data ++ b.data := rfl

lemma unlines_cons (a : String) (l : List String) :
    unlines (a :: l) = a ++ "\n" ++ unlines l := rfl

lemma edlEventsFrom_eq :
    ∀ (segs : List Seg) (idx : Nat),
      edlEventsFrom idx segs =
        unlines (((List.range' idx segs.length).zip segs).map edlSpecEvent) := by
  intro segs
  induction segs with
  | nil => intro idx; rfl
  | cons s rest ih =>
    intro idx
    show edlEventLine idx s ++ edlEventsFrom (idx + 1) rest = _
    rw [ih (idx + 1)]
    simp only [List.length_cons, List.range', List.zip_cons_cons, List.map_cons, unlines_cons]
    apply String.ext
    simp [data_append, edlEventLine, edlSpecEvent, List.append_assoc]

/-- Claim C7: the content generate_edl writes is exactly the line list of
edlSpecLines joined with newlines — a title line and a frame-mode line,
a blank separator, then one event line per segment in order, each
carrying the 3-digit zero-padded record number, the fixed AX reel, V and
C markers, and four timecodes in which record-in/out duplicate
source-in/out (all computed by format_time_for_edl from the segment's own
start and end); the number of event lines equals the number of
segments. -/
theorem claim_C7 (segments : List Seg) :
    generate_edl segments = unlines (edlSpecLines segments) ∧
    (edlSpecEvents segments).length = segments.length := by
  constructor
  · show "TITLE: Extracted Segments EDL\n" ++ "FCM: NON-DROP FRAME\n\n" ++
      edlEventsFrom 1 segments = _
    rw [edlEventsFrom_eq segments 1]
    simp only [edlSpecLines, edlSpecEvents, unlines_cons]
    apply String.ext
    simp [data_append]
  · simp [edlSpecEvents]

-- ## Claim C9

lemma splitOnChar_ne_nil (sep : Char) : ∀ cs : List Char, splitOnChar sep cs ≠ [] := by
  intro cs
  cases cs with
  | nil => simp [splitOnChar]
  | cons c rest =>
    simp only [splitOnChar]
    cases splitOnChar sep rest with
    | nil => simp
    | cons g gs =>
      by_cases hc : (c == sep) = true
      · simp [hc]
      · simp only [Bool.not_eq_true] at hc
        simp [hc]

lemma splitOnChar_append_sep (sep : Char) :
    ∀ (a b : List Char), (∀ c ∈ a, c ≠ sep) →
      splitOnChar sep (a ++ sep :: b) = a :: splitOnChar sep b := by
  intro a
  induction a with
  | nil =>
    intro b _
    obtain ⟨g, gs, hgs⟩ : ∃ g gs, splitOnChar sep b = g :: gs := by
      cases h : splitOnChar sep b with
      | nil => exact absurd h (splitOnChar_ne_nil sep b)
      | cons g gs => exact ⟨g, gs, rfl⟩
    simp [splitOnChar, hgs]
  | cons x xs ih =>
    intro b h
    have hx : (x == sep) = false := by
      have := h x (List.mem_cons_self _ _)
      simp [this]
    show splitOnChar sep (x :: (xs ++ sep :: b)) = _
    simp only [splitOnChar, ih b (fun c hc => h c (List.mem_cons_of_mem _ hc)), hx]
    simp

lemma escapedPath_no_newline {p : String} (h : '\n' ∉ p.data) :
    '\n' ∉ (escapedPath p).data := by
  simp only [escapedPath, pyReplaceChar]
  intro hmem
  rw [List.mem_flatMap] at hmem
  obtain ⟨c, hc, hrep⟩ := hmem
  by_cases hcq : (c == quoteCh) = true
  · rw [if_pos hcq] at hrep
    exact absurd hrep (by decide)
  · rw [if_neg (by simp_all)] at hrep
    simp only [List.mem_singleton] at hrep
    exact h (hrep ▸ hc)

lemma concatLineCore_no_newline {p : String} (h : '\n' ∉ p.data) :
    ∀ c ∈ (concatLineCore p).data, c ≠ '\n' := by
  intro c hc
  simp only [concatLineCore, data_append] at hc
  have hesc := escapedPath_no_newline h
  intro hceq
  subst hceq
  simp only [List.mem_append] at hc
  rcases hc with ((hc | hc) | hc) | hc
  · exact absurd hc (by decide)
  · exact absurd hc (by decide)
  · exact hesc hc
  · exact absurd hc (by decide)

/-- Claim C9: the manifest create_concat_list writes consists of exactly
one line per input path, in input order (plus the empty tail after the
final newline), each line of the form file <quote><path><quote>; the path
is single-quoted and every embedded single quote is expanded to
quote-backslash-quote-quote.  The no-newline hypothesis states that the
inputs are path names (which never contain newlines). -/
theorem claim_C9 (paths : List String) (h : ∀ p ∈ paths, '\n' ∉ p.data) :
    splitOnChar '\n' (create_concat_list paths).data =
      paths.map (fun p => (concatLineCore p).data) ++ [[]] ∧
    (splitOnChar '\n' (create_concat_list paths).data).length = paths.length + 1 ∧
    (∀ p : String, (escapedPath p).data =
      p.data.flatMap
        (fun c => if c == quoteCh then [quoteCh, '\\', quoteCh, quoteCh] else [c])) := by
  have hmain : splitOnChar '\n' (create_concat_list paths).data =
      paths.map (fun p => (concatLineCore p).data) ++ [[]] := by
    induction paths with
    | nil => rfl
    | cons p rest ih =>
      have hstep : (create_concat_list (p :: rest)).data =
          (concatLineCore p).data ++ '\n' :: (create_concat_list rest).data := by
        simp [create_concat_list, concatLine, concatLineCore, data_append, List.append_assoc]
      rw [hstep,
        splitOnChar_append_sep '\n' _ _ (concatLineCore_no_newline (h p (List.mem_cons_self _ _))),
        ih (fun q hq => h q (List.mem_cons_of_mem _ hq))]
      rfl
  refine ⟨hmain, ?_, fun p => rfl⟩
  rw [hmain]
  simp

theorem claim_C9_witness :
    splitOnChar '\n' (create_concat_list ["segments/segment_001.mov"]).data =
      ["segments/segment_001.mov"].map (fun p => (concatLineCore p).data) ++ [[]] ∧
    (splitOnChar '\n' (create_concat_list ["segments/segment_001.mov"]).data).length =
      (["segments/segment_001.mov"] : List String).length + 1 ∧
    (∀ p : String, (escapedPath p).data =
      p.data.flatMap
        (fun c => if c == quoteCh then [quoteCh, '\\', quoteCh, quoteCh] else [c])) :=
  claim_C9 ["segments/segment_001.mov"] (by decide)
